import Mathlib

/-!
Shallow embedding of the sampling-and-statistics engine of `tracerbench.c`
(a Linux kernel benchmark module).  `u64` is modelled as `Nat` with explicit
`% 2^64` wherever the C arithmetic can wrap; fallible or undefined behaviour
(NULL dereference, out-of-bounds read, integer division by zero) is modelled
by `Option`, with `none` standing for the undefined execution.  `WARN_ON`
(which only logs and continues) is modelled as a `Bool` carried in results.
-/

namespace TracerBench

/-- 2^64, the modulus of `u64` arithmetic. -/
def U64MOD : Nat := 2 ^ 64

/-- `u64_cmp` (tracerbench.c:138-144): three-way comparison of two `u64`. -/
def u64_cmp (a b : Nat) : Int :=
  if a < b then -1 else if b < a then 1 else 0

/-- `sort(p, n, sizeof(u64), u64_cmp, u64_swp)` (kernel heapsort with the
comparator `u64_cmp`): an ascending in-place sort.  Since `u64_cmp` orders by
numeric value, any comparison sort yields the same list; we model it with
insertion sort over `≤`. -/
def sortU64 (l : List Nat) : List Nat := l.insertionSort (· ≤ ·)

/-- One step of `WARN_ON(check_add_overflow(total, x, &total))`: the sum is
stored wrapped mod 2^64 and the warning flag records whether any addition
overflowed (the C code only logs and continues). -/
def wrapAddWarn (p : Nat × Bool) (b : Nat) : Nat × Bool :=
  ((p.1 + b) % U64MOD, p.2 || decide (U64MOD ≤ p.1 + b))

/-- The accumulation loop pattern used by `compute_statistics`,
`compute_heap_average` and `run_benchmark`: wrapped sum plus overflow-warned
flag. -/
def wrapSumWarn (l : List Nat) : Nat × Bool := l.foldl wrapAddWarn (0, false)

/-- `median_and_max` (tracerbench.c:194-207).  Sorts the array, writes the max
(last element) through the out pointer and returns the median; for even length
the two middle elements are added in `u64` arithmetic (wrapping mod 2^64)
before halving.  `none` models the out-of-bounds read `p[n-1]` on an empty
array. -/
def median_and_max (p : List Nat) : Option (Nat × Nat) :=
  match p with
  | [] => none
  | _ :: _ =>
    let n := p.length
    let pos := n / 2
    let s := sortU64 p
    let mx := s.getD (n - 1) 0
    if n % 2 = 1 then some (s.getD pos 0, mx)
    else some ((s.getD pos 0 + s.getD (pos - 1) 0) % U64MOD / 2, mx)

/-- `nth_percentile` (tracerbench.c:183-192).  `n * percentile` is computed in
`u64` (wrapping, with only a `WARN_ON`), divided by 100 and clamped to
`[0, n-1]`; the sorted array is then indexed.  The returned `Bool` is the
overflow-warned flag; `none` models the undefined behaviour on an empty
array (`n - 1` underflows and `p[pos]` is read out of bounds). -/
def nth_percentile (percentile : Nat) (p : List Nat) : Option (Bool × Nat) :=
  match p with
  | [] => none
  | _ :: _ =>
    let n := p.length
    let warn := decide (U64MOD ≤ n * percentile)
    let tmp := n * percentile % U64MOD
    let pos := tmp / 100
    let pos2 := min pos (n - 1)
    some (warn, (sortU64 p).getD pos2 0)

/-- The per-operation part of `struct statistics` written by a worker
(`median`, `avg`, `max`; tracerbench.c:51-57,229-246). -/
structure CoreStats where
  median : Nat
  avg : Nat
  max : Nat
deriving DecidableEq

/-- `compute_statistics` (tracerbench.c:229-246).  Sums each array with
`WARN_ON(check_add_overflow(...))` (wrapping, warn-and-continue), then derives
median/max by `median_and_max` and `avg = total / n`.  The `Bool` is the
overflow-warned flag.  Both arrays have length `n = nr_samples`; `none` models
the undefined behaviour for `n = 0`. -/
def compute_statistics (irq_data preempt_data : List Nat) :
    Option (CoreStats × CoreStats × Bool) :=
  let n := irq_data.length
  let ti := wrapSumWarn irq_data
  let tp := wrapSumWarn preempt_data
  match median_and_max irq_data, median_and_max preempt_data with
  | some im, some pm =>
      some (⟨im.1, ti.1 / n, im.2⟩, ⟨pm.1, tp.1 / n, pm.2⟩, ti.2 || tp.2)
  | _, _ => none

/-- `struct u64_min_heap` (DEFINE_MIN_HEAP, tracerbench.c:49): `data` holds the
current `nr` elements, `size` is the allocated capacity.  `init_heaps` passes
`size = cached_nr_highest + 1` (tracerbench.c:215,224-225). -/
structure U64MinHeap where
  data : List Nat
  size : Nat
deriving DecidableEq

/-- `u64_swp` as used on two heap slots: exchange elements `i` and `j`. -/
def listSwap (l : List Nat) (i j : Nat) : List Nat :=
  (l.set i (l.getD j 0)).set j (l.getD i 0)

/-- `__min_heap_sift_up` (linux/min_heap.h): bubble the element at `idx` up
while it is not greater than its parent (`less` is strict `<`, so the loop
swaps on ties).  `fuel ≥ idx` bounds the strictly decreasing index. -/
def siftUpFuel : Nat → List Nat → Nat → List Nat
  | 0, l, _ => l
  | fuel + 1, l, idx =>
    if idx = 0 then l
    else
      let parent := (idx - 1) / 2
      if l.getD parent 0 < l.getD idx 0 then l
      else siftUpFuel fuel (listSwap l parent idx) parent

/-- `min_heap_sift_down` (linux/min_heap.h): restore the min-heap property from
position `pos` downwards, swapping with the smaller child while it is smaller
than the current element.  `fuel ≥ length` bounds the descent. -/
def siftDownFuel : Nat → List Nat → Nat → List Nat
  | 0, l, _ => l
  | fuel + 1, l, pos =>
    let n := l.length
    let left := 2 * pos + 1
    let right := 2 * pos + 2
    let s1 := if left < n ∧ l.getD left 0 < l.getD pos 0 then left else pos
    let s2 := if right < n ∧ l.getD right 0 < l.getD s1 0 then right else s1
    if s2 = pos then l else siftDownFuel fuel (listSwap l pos s2) s2

/-- `min_heap_full_inline`: the heap is full when `nr == size`. -/
def min_heap_full (h : U64MinHeap) : Bool := h.data.length == h.size

/-- `min_heap_push_inline`: if there is room, append the value at index `nr`
and sift it up. -/
def min_heap_push (h : U64MinHeap) (v : Nat) : U64MinHeap :=
  if h.size ≤ h.data.length then h
  else { h with data := siftUpFuel h.data.length (h.data ++ [v]) h.data.length }

/-- `add_samples` (tracerbench.c:161-171): offer each sample; push while the
heap is not full, otherwise replace the root when the sample exceeds it and
sift down. -/
def add_samples (h : U64MinHeap) (samples : List Nat) : U64MinHeap :=
  samples.foldl
    (fun h v =>
      if !(min_heap_full h) then min_heap_push h v
      else if h.data.getD 0 0 < v then
        { h with data := siftDownFuel h.data.length (h.data.set 0 v) 0 }
      else h)
    h

/-- `compute_heap_average` (tracerbench.c:173-181): wrapped warn-and-continue
sum of the retained elements, then `total / h->nr`.  The `Bool` is the
overflow-warned flag; the quotient is `none` when the heap is empty, modelling
the unchecked `u64` division by zero. -/
def compute_heap_average (h : U64MinHeap) : Bool × Option Nat :=
  let t := wrapSumWarn h.data
  (t.2, if h.data.length = 0 then none else some (t.1 / h.data.length))

/-- What `sample_thread_fn` publishes for one worker: the two per-operation
`CoreStats`, the slices offered to the shared heaps, and the overflow-warned
flag. -/
structure WorkerOut where
  irq : CoreStats
  preempt : CoreStats
  irqOffers : List Nat
  preemptOffers : List Nat
  warned : Bool
deriving DecidableEq

/-- `sample_thread_fn` (tracerbench.c:263-292).  `allocIrq`/`allocPreempt` are
the results of the two `kvmalloc_array` calls: `some data` is a successful
allocation holding the `n` collected samples, `none` a failed one.  The C code
skips only `collect_data` on failure and still calls `compute_statistics` and
`add_samples` on the NULL buffers (lines 281,290-291); the returned `Bool`
records that a failed buffer was dereferenced, and the run's outcome is then
`none` (undefined behaviour).  On success the offered slices are the trailing
`nh = cached_nr_highest` elements of the arrays, which `compute_statistics`
has sorted in place. -/
def sample_thread_fn (allocIrq allocPreempt : Option (List Nat)) (n nh : Nat) :
    Bool × Option WorkerOut :=
  match allocIrq, allocPreempt with
  | some irq_data, some preempt_data =>
    (false,
     match compute_statistics irq_data preempt_data with
     | none => none
     | some (ci, cp, w) =>
       some { irq := ci, preempt := cp,
              irqOffers := ((sortU64 irq_data).drop (n - nh)).take nh,
              preemptOffers := ((sortU64 preempt_data).drop (n - nh)).take nh,
              warned := w })
  | _, _ => (true, none)

/-- The aggregation loop of `run_benchmark` (tracerbench.c:346-375) for one
operation: wrapped warn-and-continue sum of the per-core means, running max of
the per-core maxima, and `median_and_max` over the collected per-core medians;
publishes `(warned, median, avg = total / nr_cpus, max)`.  `none` models the
undefined behaviour when no CPU participated. -/
def aggregate_stats (recs : List CoreStats) : Option (Bool × Nat × Nat × Nat) :=
  match recs with
  | [] => none
  | _ :: _ =>
    let t := wrapSumWarn (recs.map CoreStats.avg)
    let mx := (recs.map CoreStats.max).foldl max 0
    match median_and_max (recs.map CoreStats.median) with
    | none => none
    | some m => some (t.2, m.1, t.1 / recs.length, mx)

/-- `struct statistics` (tracerbench.c:51-57): the published per-operation
system-wide statistics. -/
structure statistics where
  median : Nat
  avg : Nat
  max : Nat
  max_avg : Nat
  percentile : Nat
deriving DecidableEq

/-- The two published result blocks `irq_stat` and `preempt_stat`
(tracerbench.c:96-97). -/
structure ModState where
  irq_stat : statistics
  preempt_stat : statistics
deriving DecidableEq

/-- `-EINVAL` (as a positive error code). -/
def EINVAL : Nat := 22

/-- `-ENOMEM` (as a positive error code). -/
def ENOMEM : Nat := 12

/-- The environment of one benchmark run: per online CPU the outcomes of the
worker's two sample-buffer allocations (with the samples `collect_data` would
store), plus the success of the heap-backing and medians-array allocations. -/
structure RunEnv where
  cpus : List (Option (List Nat) × Option (List Nat))
  heapAllocOk : Bool
  mediansAllocOk : Bool

/-- `init_heaps` (tracerbench.c:209-227): allocate the two heap backing arrays
of `cached_nr_highest + 1` slots, or fail with `-ENOMEM`. -/
def init_heaps (cached : Nat) (allocOk : Bool) : Option (U64MinHeap × U64MinHeap) :=
  if allocOk then some (⟨[], cached + 1⟩, ⟨[], cached + 1⟩) else none

/-- `WRITE_ONCE(cached_nr_highest, min(n, READ_ONCE(nr_highest)))`
(tracerbench.c:391). -/
def benchmark_cached (nr_samples nr_highest : Nat) : Nat := min nr_samples nr_highest

/-- `run_benchmark` (tracerbench.c:314-378).  Every online CPU runs
`sample_thread_fn` once (populating the shared heaps in some serialised
order), then the coordinator sums/maxes/collects the per-core statistics and
publishes the four benchmark fields of each `struct statistics`, leaving the
`percentile` fields as they were.  `none` models a crashed worker or the
undefined division/indexing with zero participating CPUs or an empty heap. -/
def run_benchmark (n cached : Nat) (cpus : List (Option (List Nat) × Option (List Nat)))
    (mediansAllocOk : Bool) (irqHeap0 preemptHeap0 : U64MinHeap) (st : ModState) :
    Option (Except Nat ModState) :=
  match cpus.mapM (fun c => (sample_thread_fn c.1 c.2 n cached).2) with
  | none => none
  | some results =>
    if !mediansAllocOk then some (Except.error ENOMEM)
    else
      match results with
      | [] => none
      | _ :: _ =>
        let irqHeap := results.foldl (fun h r => add_samples h r.irqOffers) irqHeap0
        let preemptHeap := results.foldl (fun h r => add_samples h r.preemptOffers) preemptHeap0
        match aggregate_stats (results.map WorkerOut.irq),
              aggregate_stats (results.map WorkerOut.preempt),
              (compute_heap_average irqHeap).2,
              (compute_heap_average preemptHeap).2 with
        | some ia, some pa, some iha, some pha =>
          some (Except.ok
            { irq_stat := { median := ia.2.1, avg := ia.2.2.1, max := ia.2.2.2,
                            max_avg := iha, percentile := st.irq_stat.percentile },
              preempt_stat := { median := pa.2.1, avg := pa.2.2.1, max := pa.2.2.2,
                                max_avg := pha, percentile := st.preempt_stat.percentile } })
        | _, _, _, _ => none

/-- `benchmark_write` (tracerbench.c:380-402): reject `nr_samples = 0` with
`-EINVAL` before any work, cache the clamped top-K count, allocate the heaps,
run the benchmark and publish (or propagate the error leaving the published
statistics untouched).  `none` models an undefined (crashing) run. -/
def benchmark_write (nr_samples nr_highest : Nat) (env : RunEnv) (st : ModState) :
    Option (Except Nat Unit × ModState) :=
  if nr_samples = 0 then some (Except.error EINVAL, st)
  else
    let cached := benchmark_cached nr_samples nr_highest
    match init_heaps cached env.heapAllocOk with
    | none => some (Except.error ENOMEM, st)
    | some (h1, h2) =>
      match run_benchmark nr_samples cached env.cpus env.mediansAllocOk h1 h2 st with
      | none => none
      | some (Except.error e) => some (Except.error e, st)
      | some (Except.ok st1) => some (Except.ok (), st1)

/-- `percentile_write` (tracerbench.c:411-446): reject `nr_samples = 0`, a
failed parse of the user buffer (`parsed = none`), and a percentile outside
`[1, 100]`; on allocation failure return `-ENOMEM`; otherwise collect fresh
samples (given by `allocIrq`/`allocPreempt`) and overwrite exactly the two
`percentile` fields. -/
def percentile_write (nr_samples : Nat) (parsed : Option Nat)
    (allocIrq allocPreempt : Option (List Nat)) (st : ModState) :
    Option (Except Nat Unit × ModState) :=
  if nr_samples = 0 then some (Except.error EINVAL, st)
  else
    match parsed with
    | none => some (Except.error EINVAL, st)
    | some nth_percent =>
      if nth_percent = 0 ∨ 100 < nth_percent then some (Except.error EINVAL, st)
      else
        match allocIrq, allocPreempt with
        | some irq_data, some preempt_data =>
          match nth_percentile nth_percent irq_data, nth_percentile nth_percent preempt_data with
          | some r1, some r2 =>
            some (Except.ok (),
              { irq_stat := { st.irq_stat with percentile := r1.2 },
                preempt_stat := { st.preempt_stat with percentile := r2.2 } })
          | _, _ => none
        | _, _ => some (Except.error ENOMEM, st)

end TracerBench

namespace TracerBench

/-! ### Helper lemmas -/

/-- `u64_cmp` orders `u64` values by numeric value: sorting with it is sorting
by `≤`. -/
theorem u64_cmp_nonpos_iff (a b : Nat) : u64_cmp a b ≤ 0 ↔ a ≤ b := by
  unfold u64_cmp
  by_cases h1 : a < b
  · rw [if_pos h1]
    constructor
    · intro _; omega
    · intro _; omega
  · rw [if_neg h1]
    by_cases h2 : b < a
    · rw [if_pos h2]
      constructor
      · intro hc; omega
      · intro hc; omega
    · rw [if_neg h2]
      constructor
      · intro _; omega
      · intro _; omega

theorem wrapSumWarn_aux (l : List Nat) :
    ∀ a w, (l.foldl wrapAddWarn (a % U64MOD, w)).1 = (a + l.sum) % U64MOD := by
  induction l with
  | nil => intro a w; simp
  | cons b t ih =>
    intro a w
    have h1 : wrapAddWarn (a % U64MOD, w) b
        = ((a + b) % U64MOD, w || decide (U64MOD ≤ a % U64MOD + b)) := by
      simp [wrapAddWarn, Nat.mod_add_mod]
    simp only [List.foldl_cons, h1, ih (a + b)]
    simp [List.sum_cons, Nat.add_assoc]

/-- The wrapped-sum accumulator computes the sum mod 2^64. -/
theorem wrapSumWarn_fst (l : List Nat) : (wrapSumWarn l).1 = l.sum % U64MOD := by
  have h := wrapSumWarn_aux l 0 false
  simpa [wrapSumWarn] using h

theorem sortU64_sorted (l : List Nat) : List.Sorted (· ≤ ·) (sortU64 l) :=
  List.sorted_insertionSort _ l

theorem sortU64_perm (l : List Nat) : (sortU64 l).Perm l :=
  List.perm_insertionSort _ l

theorem sortU64_length (l : List Nat) : (sortU64 l).length = l.length :=
  List.length_insertionSort _ l

theorem sortU64_mem (l : List Nat) (x : Nat) : x ∈ sortU64 l ↔ x ∈ l :=
  List.mem_insertionSort _

/-- The last element of the sorted array is a member of the original list. -/
theorem sortU64_getD_last_mem (l : List Nat) (h : l ≠ []) :
    (sortU64 l).getD (l.length - 1) 0 ∈ l := by
  have hlen : l.length - 1 < (sortU64 l).length := by
    rw [sortU64_length]
    have := List.length_pos.2 h
    omega
  rw [List.getD_eq_getElem _ _ hlen]
  exact (sortU64_mem l _).1 (List.getElem_mem hlen)

/-- The last element of the sorted array bounds every member of the list. -/
theorem sortU64_le_getD_last (l : List Nat) (x : Nat) (hx : x ∈ l) :
    x ≤ (sortU64 l).getD (l.length - 1) 0 := by
  have hmem : x ∈ sortU64 l := (sortU64_mem l x).2 hx
  obtain ⟨i, hi, hxe⟩ := List.getElem_of_mem hmem
  have hlp : 0 < l.length := List.length_pos.2 (List.ne_nil_of_mem hx)
  have hlast : l.length - 1 < (sortU64 l).length := by rw [sortU64_length]; omega
  rw [List.getD_eq_getElem _ _ hlast]
  have hle : (⟨i, hi⟩ : Fin (sortU64 l).length) ≤ ⟨l.length - 1, hlast⟩ := by
    have := sortU64_length l
    exact Fin.mk_le_mk.2 (by omega)
  have hrel := (sortU64_sorted l).rel_get_of_le hle
  rw [List.get_eq_getElem, List.get_eq_getElem] at hrel
  exact hxe ▸ hrel

/-- The first element of the sorted array is a member of the original list. -/
theorem sortU64_getD_head_mem (l : List Nat) (h : l ≠ []) :
    (sortU64 l).getD 0 0 ∈ l := by
  have hlen : 0 < (sortU64 l).length := by
    rw [sortU64_length]; exact List.length_pos.2 h
  rw [List.getD_eq_getElem _ _ hlen]
  exact (sortU64_mem l _).1 (List.getElem_mem hlen)

/-- The first element of the sorted array is below every member of the list. -/
theorem sortU64_getD_head_le (l : List Nat) (x : Nat) (hx : x ∈ l) :
    (sortU64 l).getD 0 0 ≤ x := by
  have hmem : x ∈ sortU64 l := (sortU64_mem l x).2 hx
  obtain ⟨i, hi, hxe⟩ := List.getElem_of_mem hmem
  have hlen : 0 < (sortU64 l).length := by
    rw [sortU64_length]; exact List.length_pos.2 (List.ne_nil_of_mem hx)
  rw [List.getD_eq_getElem _ _ hlen]
  have hle : (⟨0, hlen⟩ : Fin (sortU64 l).length) ≤ ⟨i, hi⟩ :=
    Fin.mk_le_mk.2 (Nat.zero_le i)
  have hrel := (sortU64_sorted l).rel_get_of_le hle
  rw [List.get_eq_getElem, List.get_eq_getElem] at hrel
  exact hxe ▸ hrel

/-- Closed form of `median_and_max` on a non-empty array. -/
theorem median_and_max_eq (l : List Nat) (h : l ≠ []) :
    median_and_max l =
      some (if l.length % 2 = 1 then (sortU64 l).getD (l.length / 2) 0
            else ((sortU64 l).getD (l.length / 2) 0
                   + (sortU64 l).getD (l.length / 2 - 1) 0) % U64MOD / 2,
            (sortU64 l).getD (l.length - 1) 0) := by
  cases l with
  | nil => exact absurd rfl h
  | cons a t =>
    show (if (a :: t).length % 2 = 1 then _ else _) = _
    split <;> simp_all

/-- Closed form of `nth_percentile` on a non-empty array. -/
theorem nth_percentile_eq (pct : Nat) (l : List Nat) (h : l ≠ []) :
    nth_percentile pct l =
      some (decide (U64MOD ≤ l.length * pct),
            (sortU64 l).getD (min (l.length * pct % U64MOD / 100) (l.length - 1)) 0) := by
  cases l with
  | nil => exact absurd rfl h
  | cons a t => rfl

theorem foldl_max_le (l : List Nat) : ∀ a, a ≤ l.foldl max a := by
  induction l with
  | nil => intro a; simp
  | cons b t ih =>
    intro a
    calc a ≤ max a b := Nat.le_max_left a b
    _ ≤ t.foldl max (max a b) := ih (max a b)

theorem foldl_max_ub (l : List Nat) : ∀ a, ∀ x ∈ l, x ≤ l.foldl max a := by
  induction l with
  | nil => intro a x hx; cases hx
  | cons b t ih =>
    intro a x hx
    rcases List.mem_cons.1 hx with rfl | hx
    · calc x ≤ max a x := Nat.le_max_right a x
      _ ≤ t.foldl max (max a x) := foldl_max_le t _
    · exact ih (max a b) x hx

theorem foldl_max_mem (l : List Nat) : ∀ a, l.foldl max a = a ∨ l.foldl max a ∈ l := by
  induction l with
  | nil => intro a; left; rfl
  | cons b t ih =>
    intro a
    rcases ih (max a b) with h | h
    · rcases Nat.le_total a b with hab | hba
      · right
        rw [List.foldl_cons, h, Nat.max_eq_right hab]
        exact List.mem_cons_self b t
      · left
        rw [List.foldl_cons, h, Nat.max_eq_left hba]
    · right
      exact List.mem_cons.2 (Or.inr h)

/-- A non-empty fold of `max` starting at 0 lands in the list. -/
theorem foldl_max_zero_mem (l : List Nat) (h : l ≠ []) : l.foldl max 0 ∈ l := by
  rcases foldl_max_mem l 0 with h0 | hm
  · cases l with
    | nil => exact absurd rfl h
    | cons b t =>
      have hb : b ≤ List.foldl max 0 (b :: t) :=
        foldl_max_ub (b :: t) 0 b (List.mem_cons_self b t)
      rw [h0] at hb ⊢
      have : b = 0 := Nat.le_zero.1 hb
      rw [← this]
      exact List.mem_cons_self b t
  · exact hm

/-- Mapping over a list whose members all equal `r0` yields a `replicate`. -/
theorem map_all_eq {α β : Type} (f : α → β) (r0 : α) :
    ∀ recs : List α, (∀ r ∈ recs, r = r0) →
      recs.map f = List.replicate recs.length (f r0) := by
  intro recs
  induction recs with
  | nil => intro _; rfl
  | cons b t ih =>
    intro hall
    have hb : b = r0 := hall b (List.mem_cons_self b t)
    have ht : t.map f = List.replicate t.length (f r0) :=
      ih fun r hr => hall r (List.mem_cons.2 (Or.inr hr))
    simp [List.replicate_succ, hb, ht]

theorem sortU64_replicate (n m : Nat) :
    sortU64 (List.replicate n m) = List.replicate n m := by
  have hs : List.Sorted (· ≤ ·) (List.replicate n m) :=
    List.pairwise_replicate.2 (Or.inr (Nat.le_refl m))
  exact hs.insertionSort_eq

theorem getD_replicate (n m i : Nat) (hi : i < n) :
    (List.replicate n m).getD i 0 = m := by
  have hlen : i < (List.replicate n m).length := by simpa using hi
  rw [List.getD_eq_getElem _ _ hlen, List.getElem_replicate]

/-- `median_and_max` over `N ≥ 1` copies of `m` whose doubling does not wrap
returns `(m, m)`. -/
theorem median_and_max_replicate (N m : Nat) (hN : N ≠ 0) (hm : m + m < U64MOD) :
    median_and_max (List.replicate N m) = some (m, m) := by
  have hne : List.replicate N m ≠ [] := by
    intro hc
    have hlc := congrArg List.length hc
    simp at hlc
    omega
  rw [median_and_max_eq _ hne]
  have hlen : (List.replicate N m).length = N := List.length_replicate N m
  rw [hlen, sortU64_replicate]
  have h1 : (List.replicate N m).getD (N / 2) 0 = m := getD_replicate N m _ (by omega)
  have h2 : (List.replicate N m).getD (N - 1) 0 = m := getD_replicate N m _ (by omega)
  rcases Nat.even_or_odd N with he | ho
  · have hmod : N % 2 = 0 := Nat.even_iff.1 he
    have h3 : (List.replicate N m).getD (N / 2 - 1) 0 = m := by
      apply getD_replicate
      omega
    rw [if_neg (by omega), h1, h2, h3, Nat.mod_eq_of_lt hm]
    congr 2
    omega
  · have hmod : N % 2 = 1 := Nat.odd_iff.1 ho
    rw [if_pos hmod, h1, h2]

end TracerBench

namespace TracerBench

/-! ### Claim theorems -/

/-- C1: the claim says a worker whose sample-buffer allocation failed records
no statistics and signals failure, never computing over the failed array.  The
code (tracerbench.c:275-281,290-291) only skips `collect_data`: it still calls
`compute_statistics` and `add_samples` on the NULL buffer.  At the failing
input (irq allocation failed, `nr_samples = 2`), the worker model reports that
the failed buffer was dereferenced (`true`) and the execution is undefined
(`none`); the full run triggered with that worker likewise has no defined
outcome instead of an error result. -/
theorem C1_alloc_failure_dereferenced (st : ModState) :
    sample_thread_fn none (some [1, 2]) 2 1 = (true, none) ∧
    benchmark_write 2 1 ⟨[(none, some [1, 2])], true, true⟩ st = none :=
  ⟨rfl, rfl⟩

/-- C2: the claim says a sum overflow during mean computation is reported as
an error and no wrapped mean is published.  At the failing input
`[2^63, 2^63]` the sum wraps to 0: `compute_statistics` merely sets the
overflow-warned flag (`WARN_ON` logs and continues) and publishes
`avg = 0`, and the triggering `benchmark_write` still returns success with the
wrapped mean 0 published. -/
theorem C2_overflow_only_warned (st : ModState) :
    compute_statistics [2 ^ 63, 2 ^ 63] [1, 1]
      = some (⟨0, 0, 2 ^ 63⟩, ⟨1, 1, 1⟩, true) ∧
    (benchmark_write 2 1 ⟨[(some [2 ^ 63, 2 ^ 63], some [1, 1])], true, true⟩ st).map
        (fun r => (r.1, r.2.irq_stat.avg)) = some (Except.ok (), 0) :=
  ⟨rfl, rfl⟩

/-- C3: the claim says a tracker with effective capacity `K` retains exactly
`min(n, K)` elements, the largest of the stream.  The backing array is sized
`cached_nr_highest + 1` (tracerbench.c:215) and `min_heap_full` only triggers
at `nr == size`, so with `K = 1` a stream of two offers `[5, 6]` leaves the
heap holding both elements instead of `min(2, 1) = 1`; in a two-worker run
with `nr_highest = 1` the published top-K mean is `(6 + 8) / 2 = 7`, the mean
of the two retained samples, not the top-1 mean 8. -/
theorem C3_tracker_retains_k_plus_one (st : ModState) :
    benchmark_cached 2 1 = 1 ∧
    (add_samples ⟨[], 1 + 1⟩ [5, 6]).data = [5, 6] ∧
    ¬((add_samples ⟨[], 1 + 1⟩ [5, 6]).data.length = min 2 1) ∧
    (benchmark_write 2 1
        ⟨[(some [5, 6], some [5, 6]), (some [7, 8], some [7, 8])], true, true⟩ st).map
        (fun r => r.2.irq_stat.max_avg) = some 7 :=
  ⟨rfl, rfl, by decide, rfl⟩

/-- C4: the claim says the tracker mean reports the empty case to the caller
instead of dividing by zero.  With `nr_highest = 0` the heaps stay empty and
`compute_heap_average` performs an unchecked `u64` division `total / h->nr`
with `nr = 0`: the model yields `none` (undefined behaviour), and a benchmark
run triggered with `nr_highest = 0` has no defined outcome at all rather than
a reported error. -/
theorem C4_empty_tracker_division_by_zero (st : ModState) :
    compute_heap_average ⟨[], 0 + 1⟩ = (false, none) ∧
    benchmark_write 1 0 ⟨[(some [5], some [7])], true, true⟩ st = none :=
  ⟨rfl, rfl⟩

/-- C7: a benchmark trigger with `sampleCount = 0` fails with `-EINVAL` before
any work and leaves every field of the previously published statistics
unchanged (the returned state is exactly the prior state). -/
theorem C7_zero_sample_count_rejected (nr_highest : Nat) (env : RunEnv) (st : ModState) :
    benchmark_write 0 nr_highest env st = some (Except.error EINVAL, st) :=
  rfl

end TracerBench

namespace TracerBench

/-- C5 counterexample: for the array `[2^63, 2^63]` the claim's even-length
median, the floor of `(a + b) / 2` of the two middle elements, is `2^63`, but
`median_and_max` adds the middle elements in wrapping `u64` arithmetic and
returns median 0. -/
theorem C5_median_wraps_counterexample :
    median_and_max [2 ^ 63, 2 ^ 63] = some (0, 2 ^ 63) ∧
    (2 ^ 63 + 2 ^ 63) / 2 = 2 ^ 63 ∧ (0 : Nat) ≠ 2 ^ 63 :=
  ⟨rfl, by norm_num, by norm_num⟩

/-- C5 amended: for every non-empty array, the reduction sorts it ascending
(`sortU64 l` is a sorted permutation of `l`) and returns max equal to the last
element after sorting (which is a member of the array and an upper bound of
it), and median equal to the middle element when the length is odd, or to
`((a + b) mod 2^64) / 2` of the two middle elements `a` and `b` when the
length is even (the sum is taken in wrapping 64-bit arithmetic). -/
theorem C5_median_max_amended (l : List Nat) (h : l ≠ []) :
    ∃ med mx, median_and_max l = some (med, mx) ∧
      List.Sorted (· ≤ ·) (sortU64 l) ∧ (sortU64 l).Perm l ∧
      mx = (sortU64 l).getD (l.length - 1) 0 ∧ mx ∈ l ∧ (∀ x ∈ l, x ≤ mx) ∧
      (l.length % 2 = 1 → med = (sortU64 l).getD (l.length / 2) 0) ∧
      (l.length % 2 = 0 →
        med = ((sortU64 l).getD (l.length / 2) 0
                + (sortU64 l).getD (l.length / 2 - 1) 0) % U64MOD / 2) := by
  refine ⟨_, _, median_and_max_eq l h, sortU64_sorted l, sortU64_perm l, rfl,
    sortU64_getD_last_mem l h, fun x hx => sortU64_le_getD_last l x hx, ?_, ?_⟩
  · intro hodd
    rw [if_pos hodd]
  · intro heven
    rw [if_neg (by omega)]

/-- C5 witness: the amended theorem applied to the concrete array
`[1, 2, 3, 4]`. -/
theorem C5_median_max_amended_witness :
    ∃ med mx, median_and_max [1, 2, 3, 4] = some (med, mx) ∧
      List.Sorted (· ≤ ·) (sortU64 [1, 2, 3, 4]) ∧ (sortU64 [1, 2, 3, 4]).Perm [1, 2, 3, 4] ∧
      mx = (sortU64 [1, 2, 3, 4]).getD ([1, 2, 3, 4].length - 1) 0 ∧
      mx ∈ [1, 2, 3, 4] ∧ (∀ x ∈ [1, 2, 3, 4], x ≤ mx) ∧
      ([1, 2, 3, 4].length % 2 = 1 → med = (sortU64 [1, 2, 3, 4]).getD ([1, 2, 3, 4].length / 2) 0) ∧
      ([1, 2, 3, 4].length % 2 = 0 →
        med = ((sortU64 [1, 2, 3, 4]).getD ([1, 2, 3, 4].length / 2) 0
                + (sortU64 [1, 2, 3, 4]).getD ([1, 2, 3, 4].length / 2 - 1) 0) % U64MOD / 2) :=
  C5_median_max_amended [1, 2, 3, 4] (by decide)

/-- C9 counterexample: aggregating two identical per-core records with
median = mean = `2^63` publishes a global median and mean of 0 — both the sum
of the per-core means and the median midpoint wrap mod 2^64 — while the claim
requires the shared value `2^63`. -/
theorem C9_aggregation_wraps_counterexample :
    aggregate_stats [⟨2 ^ 63, 2 ^ 63, 7⟩, ⟨2 ^ 63, 2 ^ 63, 7⟩]
      = some (true, 0, 0, 7) ∧ (0 : Nat) ≠ 2 ^ 63 :=
  ⟨rfl, by norm_num⟩

/-- C9 amended: aggregating `N ≥ 1` per-core records yields a global max equal
to the maximum of the per-core max values, a global mean equal to the sum of
the per-core means reduced mod 2^64 divided by `N`, and a global median equal
to the program's (wrapping) median of the per-core medians; consequently, when
all `N` records are identical and neither the doubled median nor the summed
mean wraps, the system-wide median, mean and max equal the shared per-core
values. -/
theorem C9_aggregate_amended (recs : List CoreStats) (r0 : CoreStats) (h : recs ≠ []) :
    ∃ w med avg mx, aggregate_stats recs = some (w, med, avg, mx) ∧
      mx ∈ recs.map CoreStats.max ∧ (∀ r ∈ recs, r.max ≤ mx) ∧
      avg = (recs.map CoreStats.avg).sum % U64MOD / recs.length ∧
      (∃ mm, median_and_max (recs.map CoreStats.median) = some (med, mm)) ∧
      ((∀ r ∈ recs, r = r0) → r0.median + r0.median < U64MOD →
        recs.length * r0.avg < U64MOD →
        med = r0.median ∧ avg = r0.avg ∧ mx = r0.max) := by
  cases recs with
  | nil => exact absurd rfl h
  | cons b t =>
    have hmapne : (b :: t).map CoreStats.median ≠ [] := by simp
    obtain ⟨mval, mmax, hmm⟩ : ∃ a c,
        median_and_max ((b :: t).map CoreStats.median) = some (a, c) :=
      ⟨_, _, median_and_max_eq ((b :: t).map CoreStats.median) hmapne⟩
    have hagg : aggregate_stats (b :: t)
        = some ((wrapSumWarn ((b :: t).map CoreStats.avg)).2, mval,
                (wrapSumWarn ((b :: t).map CoreStats.avg)).1 / (b :: t).length,
                ((b :: t).map CoreStats.max).foldl max 0) := by
      unfold aggregate_stats
      rw [hmm]
    refine ⟨_, mval, _, _, hagg, ?_, ?_, ?_, ⟨mmax, hmm⟩, ?_⟩
    · exact foldl_max_zero_mem _ (by simp)
    · intro r hr
      exact foldl_max_ub _ 0 r.max (List.mem_map_of_mem CoreStats.max hr)
    · exact congrArg (· / (b :: t).length) (wrapSumWarn_fst ((b :: t).map CoreStats.avg))
    · intro hall hmed havg
      have hN : (b :: t).length ≠ 0 := by simp
      have hmapmed : (b :: t).map CoreStats.median
          = List.replicate (b :: t).length r0.median := map_all_eq _ r0 _ hall
      have hmapavg : (b :: t).map CoreStats.avg
          = List.replicate (b :: t).length r0.avg := map_all_eq _ r0 _ hall
      have hmapmax : (b :: t).map CoreStats.max
          = List.replicate (b :: t).length r0.max := map_all_eq _ r0 _ hall
      have hmedrep := median_and_max_replicate (b :: t).length r0.median hN hmed
      rw [hmapmed] at hmm
      have hpair : (r0.median, r0.median) = (mval, mmax) :=
        Option.some.inj (hmedrep.symm.trans hmm)
      refine ⟨(Prod.mk.inj hpair).1.symm, ?_, ?_⟩
      · rw [hmapavg, wrapSumWarn_fst, List.sum_const_nat, Nat.mod_eq_of_lt havg,
          Nat.mul_div_cancel_left r0.avg (Nat.pos_of_ne_zero hN)]
      · have hmemmax : ((b :: t).map CoreStats.max).foldl max 0 ∈ (b :: t).map CoreStats.max :=
          foldl_max_zero_mem _ (by simp)
        rw [hmapmax] at hmemmax ⊢
        exact (List.mem_replicate.1 hmemmax).2

/-- C9 witness: the amended theorem applied to the single record
`⟨1, 2, 3⟩`. -/
theorem C9_aggregate_amended_witness :
    ∃ w med avg mx, aggregate_stats [⟨1, 2, 3⟩] = some (w, med, avg, mx) ∧
      mx ∈ [CoreStats.mk 1 2 3].map CoreStats.max ∧
      (∀ r ∈ [CoreStats.mk 1 2 3], r.max ≤ mx) ∧
      avg = ([CoreStats.mk 1 2 3].map CoreStats.avg).sum % U64MOD / [CoreStats.mk 1 2 3].length ∧
      (∃ mm, median_and_max ([CoreStats.mk 1 2 3].map CoreStats.median) = some (med, mm)) ∧
      ((∀ r ∈ [CoreStats.mk 1 2 3], r = CoreStats.mk 1 2 3) →
        (CoreStats.mk 1 2 3).median + (CoreStats.mk 1 2 3).median < U64MOD →
        [CoreStats.mk 1 2 3].length * (CoreStats.mk 1 2 3).avg < U64MOD →
        med = (CoreStats.mk 1 2 3).median ∧ avg = (CoreStats.mk 1 2 3).avg ∧
          mx = (CoreStats.mk 1 2 3).max) :=
  C9_aggregate_amended [⟨1, 2, 3⟩] ⟨1, 2, 3⟩ (by decide)

end TracerBench

namespace TracerBench

/-- C6 amended: for every non-empty array and percentile `p`, the engine
returns the element at index `((n * p) mod 2^64) / 100` clamped to
`[0, n-1]` of the ascending-sorted array, together with an overflow-warned
flag that is set exactly when `n * p` wrapped; in particular, when `n * 100`
does not wrap, `percentile(100)` equals the maximum of the set, and any `p`
for which the computed index is 0 yields the minimum. -/
theorem C6_percentile_amended (p : Nat) (l : List Nat) (h : l ≠ []) :
    ∃ w v, nth_percentile p l = some (w, v) ∧
      List.Sorted (· ≤ ·) (sortU64 l) ∧ (sortU64 l).Perm l ∧
      v = (sortU64 l).getD (min (l.length * p % U64MOD / 100) (l.length - 1)) 0 ∧
      (w = true ↔ U64MOD ≤ l.length * p) ∧
      (p = 100 → l.length * 100 < U64MOD → v ∈ l ∧ ∀ x ∈ l, x ≤ v) ∧
      (l.length * p % U64MOD / 100 = 0 → v ∈ l ∧ ∀ x ∈ l, v ≤ x) := by
  refine ⟨_, _, nth_percentile_eq p l h, sortU64_sorted l, sortU64_perm l, rfl,
    by simp, ?_, ?_⟩
  · rintro rfl hlt
    have hmod : l.length * 100 % U64MOD = l.length * 100 := Nat.mod_eq_of_lt hlt
    have hpos : 0 < l.length := List.length_pos.2 h
    have hdiv : l.length * 100 / 100 = l.length := Nat.mul_div_cancel _ (by norm_num)
    have hidx : min (l.length * 100 % U64MOD / 100) (l.length - 1) = l.length - 1 := by
      rw [hmod, hdiv]; omega
    rw [hidx]
    exact ⟨sortU64_getD_last_mem l h, fun x hx => sortU64_le_getD_last l x hx⟩
  · intro h0
    rw [h0, min_eq_left (Nat.zero_le _)]
    exact ⟨sortU64_getD_head_mem l h, fun x hx => sortU64_getD_head_le l x hx⟩

/-- C6 witness: the amended theorem applied to `p = 100` and the concrete
array `[3, 1, 2]`. -/
theorem C6_percentile_amended_witness :
    ∃ w v, nth_percentile 100 [3, 1, 2] = some (w, v) ∧
      List.Sorted (· ≤ ·) (sortU64 [3, 1, 2]) ∧ (sortU64 [3, 1, 2]).Perm [3, 1, 2] ∧
      v = (sortU64 [3, 1, 2]).getD
            (min ([3, 1, 2].length * 100 % U64MOD / 100) ([3, 1, 2].length - 1)) 0 ∧
      (w = true ↔ U64MOD ≤ [3, 1, 2].length * 100) ∧
      (100 = 100 → [3, 1, 2].length * 100 < U64MOD → v ∈ [3, 1, 2] ∧ ∀ x ∈ [3, 1, 2], x ≤ v) ∧
      ([3, 1, 2].length * 100 % U64MOD / 100 = 0 → v ∈ [3, 1, 2] ∧ ∀ x ∈ [3, 1, 2], v ≤ x) :=
  C6_percentile_amended 100 [3, 1, 2] (by decide)

/-- C6 counterexample: for a pooled array of length `2^58` (all zeros except a
final 1) and `p = 100`, the product `n * p` wraps mod 2^64, so the code
returns the element at index 103762935414616227 — the value 0 — whereas the
claim's index `min(floor(n*p/100), n-1) = n-1` selects the maximum 1. -/
theorem C6_percentile_wraps_counterexample :
    nth_percentile 100 (List.replicate (2 ^ 58 - 1) 0 ++ [1]) = some (true, 0) ∧
    (sortU64 (List.replicate (2 ^ 58 - 1) 0 ++ [1])).getD
        (min ((List.replicate (2 ^ 58 - 1) 0 ++ [1]).length * 100 / 100)
             ((List.replicate (2 ^ 58 - 1) 0 ++ [1]).length - 1)) 0 = 1 ∧
    (0 : Nat) ≠ 1 := by
  have hlenr : (List.replicate (2 ^ 58 - 1) (0 : Nat)).length = 2 ^ 58 - 1 :=
    List.length_replicate _ _
  have hlen : (List.replicate (2 ^ 58 - 1) (0 : Nat) ++ [1]).length = 2 ^ 58 := by
    rw [List.length_append, hlenr]
    norm_num
  have hne : List.replicate (2 ^ 58 - 1) (0 : Nat) ++ [1] ≠ [] := by
    intro hc
    have hlc := congrArg List.length hc
    rw [List.length_append, List.length_replicate, List.length_nil] at hlc
    norm_num at hlc
  have hpw : List.Pairwise (· ≤ ·) (List.replicate (2 ^ 58 - 1) (0 : Nat) ++ [1]) := by
    rw [List.pairwise_append]
    refine ⟨List.pairwise_replicate.2 (Or.inr (Nat.le_refl 0)),
      List.pairwise_singleton _ _, ?_⟩
    intro a ha b hb
    have ha0 := List.eq_of_mem_replicate ha
    have hb1 : b = 1 := by simpa using hb
    omega
  have hsorted : List.Sorted (· ≤ ·) (List.replicate (2 ^ 58 - 1) (0 : Nat) ++ [1]) := hpw
  have hsort_eq : sortU64 (List.replicate (2 ^ 58 - 1) 0 ++ [1])
      = List.replicate (2 ^ 58 - 1) 0 ++ [1] := hsorted.insertionSort_eq
  have hwarn : (decide (U64MOD ≤ 2 ^ 58 * 100) : Bool) = true := by
    rw [decide_eq_true_eq]
    norm_num [U64MOD]
  have hidx1 : (2 ^ 58 * 100 % U64MOD / 100 : Nat) = 103762935414616227 := by
    norm_num [U64MOD]
  have hmin1 : min (103762935414616227 : Nat) (2 ^ 58 - 1) = 103762935414616227 := by
    norm_num
  have hgd1 : (List.replicate (2 ^ 58 - 1) (0 : Nat) ++ [1]).getD 103762935414616227 0 = 0 := by
    rw [List.getD_append _ _ _ _ (by rw [hlenr]; norm_num)]
    exact getD_replicate _ _ _ (by norm_num)
  refine ⟨?_, ?_, by norm_num⟩
  · rw [nth_percentile_eq _ _ hne, hlen, hsort_eq, hwarn, hidx1, hmin1, hgd1]
  · rw [hlen, hsort_eq]
    have hdiv : (2 ^ 58 * 100 / 100 : Nat) = 2 ^ 58 := by norm_num
    have hmin2 : min (2 ^ 58 : Nat) (2 ^ 58 - 1) = 2 ^ 58 - 1 := by
      norm_num
    rw [hdiv, hmin2,
      List.getD_append_right _ _ _ _ (by rw [hlenr])]
    rw [hlenr]
    norm_num

end TracerBench

namespace TracerBench

/-- `run_benchmark` can only publish a state whose two `percentile` fields are
copied from the prior state (the benchmark path never recomputes them). -/
theorem run_benchmark_preserves_percentile (n cached : Nat)
    (cpus : List (Option (List Nat) × Option (List Nat))) (mok : Bool)
    (h1 h2 : U64MinHeap) (st st1 : ModState)
    (hr : run_benchmark n cached cpus mok h1 h2 st = some (Except.ok st1)) :
    st1.irq_stat.percentile = st.irq_stat.percentile ∧
    st1.preempt_stat.percentile = st.preempt_stat.percentile := by
  unfold run_benchmark at hr
  split at hr
  · exact Option.noConfusion hr
  · split at hr
    · simp at hr
    · split at hr
      · exact Option.noConfusion hr
      · dsimp only at hr
        split at hr
        · injection hr with hsome
          injection hsome with hok
          subst hok
          exact ⟨rfl, rfl⟩
        · exact Option.noConfusion hr

/-- A percentile trigger leaves the four benchmark fields of both published
blocks untouched on every path (errors leave the whole state unchanged, the
success path overwrites only the two `percentile` fields). -/
theorem percentile_write_frame (n : Nat) (parsed : Option Nat)
    (ai ap : Option (List Nat)) (st : ModState) (r : Except Nat Unit) (st1 : ModState)
    (hmain : percentile_write n parsed ai ap st = some (r, st1)) :
    st1.irq_stat.median = st.irq_stat.median ∧ st1.irq_stat.avg = st.irq_stat.avg ∧
    st1.irq_stat.max = st.irq_stat.max ∧ st1.irq_stat.max_avg = st.irq_stat.max_avg ∧
    st1.preempt_stat.median = st.preempt_stat.median ∧
    st1.preempt_stat.avg = st.preempt_stat.avg ∧
    st1.preempt_stat.max = st.preempt_stat.max ∧
    st1.preempt_stat.max_avg = st.preempt_stat.max_avg := by
  unfold percentile_write at hmain
  split at hmain
  · obtain ⟨hh1, hh2⟩ := Prod.mk.inj (Option.some.inj hmain)
    subst hh2
    exact ⟨rfl, rfl, rfl, rfl, rfl, rfl, rfl, rfl⟩
  · split at hmain
    · obtain ⟨hh1, hh2⟩ := Prod.mk.inj (Option.some.inj hmain)
      subst hh2
      exact ⟨rfl, rfl, rfl, rfl, rfl, rfl, rfl, rfl⟩
    · split at hmain
      · obtain ⟨hh1, hh2⟩ := Prod.mk.inj (Option.some.inj hmain)
        subst hh2
        exact ⟨rfl, rfl, rfl, rfl, rfl, rfl, rfl, rfl⟩
      · split at hmain
        · split at hmain
          · obtain ⟨hh1, hh2⟩ := Prod.mk.inj (Option.some.inj hmain)
            subst hh2
            exact ⟨rfl, rfl, rfl, rfl, rfl, rfl, rfl, rfl⟩
          · exact Option.noConfusion hmain
        · obtain ⟨hh1, hh2⟩ := Prod.mk.inj (Option.some.inj hmain)
          subst hh2
          exact ⟨rfl, rfl, rfl, rfl, rfl, rfl, rfl, rfl⟩

/-- C8: the effective top-K count cached by `benchmark_write` equals
`min(topK, sampleCount)`; the heap backing arrays are sized to that value plus
one slot, and a worker's offered slice (for either operation) has exactly that
many elements. -/
theorem C8_effective_topk (nr_samples nr_highest : Nat) (irqD preD : List Nat)
    (hn : nr_samples ≠ 0) (hi : irqD.length = nr_samples) (hp : preD.length = nr_samples) :
    benchmark_cached nr_samples nr_highest = min nr_highest nr_samples ∧
    (∃ h1 h2, init_heaps (benchmark_cached nr_samples nr_highest) true = some (h1, h2) ∧
        h1.size = min nr_highest nr_samples + 1 ∧ h2.size = min nr_highest nr_samples + 1) ∧
    (∃ out, (sample_thread_fn (some irqD) (some preD) nr_samples
               (benchmark_cached nr_samples nr_highest)).2 = some out ∧
        out.irqOffers.length = min nr_highest nr_samples ∧
        out.preemptOffers.length = min nr_highest nr_samples) := by
  have hcached : benchmark_cached nr_samples nr_highest = min nr_highest nr_samples :=
    Nat.min_comm nr_samples nr_highest
  have hine : irqD ≠ [] := by
    intro hc
    rw [hc] at hi
    exact hn hi.symm
  have hpne : preD ≠ [] := by
    intro hc
    rw [hc] at hp
    exact hn hp.symm
  obtain ⟨im, imx, hmi⟩ : ∃ a c, median_and_max irqD = some (a, c) :=
    ⟨_, _, median_and_max_eq irqD hine⟩
  obtain ⟨pm, pmx, hmp⟩ : ∃ a c, median_and_max preD = some (a, c) :=
    ⟨_, _, median_and_max_eq preD hpne⟩
  have hw : (sample_thread_fn (some irqD) (some preD) nr_samples
      (benchmark_cached nr_samples nr_highest)).2
      = some { irq := ⟨im, (wrapSumWarn irqD).1 / irqD.length, imx⟩,
               preempt := ⟨pm, (wrapSumWarn preD).1 / irqD.length, pmx⟩,
               irqOffers := ((sortU64 irqD).drop
                   (nr_samples - benchmark_cached nr_samples nr_highest)).take
                   (benchmark_cached nr_samples nr_highest),
               preemptOffers := ((sortU64 preD).drop
                   (nr_samples - benchmark_cached nr_samples nr_highest)).take
                   (benchmark_cached nr_samples nr_highest),
               warned := (wrapSumWarn irqD).2 || (wrapSumWarn preD).2 } := by
    simp only [sample_thread_fn, compute_statistics, hmi, hmp]
  refine ⟨hcached, ⟨_, _, rfl, by rw [hcached], by rw [hcached]⟩, _, hw, ?_, ?_⟩
  · rw [List.length_take, List.length_drop, sortU64_length, hi]
    unfold benchmark_cached
    omega
  · rw [List.length_take, List.length_drop, sortU64_length, hp]
    unfold benchmark_cached
    omega

/-- C8 witness: the theorem applied to `sampleCount = 2`, `topK = 5` and the
concrete sample arrays `[3, 1]` and `[2, 2]` (here `min(5, 2) = 2`). -/
theorem C8_effective_topk_witness :
    benchmark_cached 2 5 = min 5 2 ∧
    (∃ h1 h2, init_heaps (benchmark_cached 2 5) true = some (h1, h2) ∧
        h1.size = min 5 2 + 1 ∧ h2.size = min 5 2 + 1) ∧
    (∃ out, (sample_thread_fn (some [3, 1]) (some [2, 2]) 2 (benchmark_cached 2 5)).2
        = some out ∧
        out.irqOffers.length = min 5 2 ∧ out.preemptOffers.length = min 5 2) :=
  C8_effective_topk 2 5 [3, 1] [2, 2] (by decide) rfl rfl

/-- C10: a percentile trigger writes only the two `percentile` fields, leaving
median, mean, max and top-K mean of both operations unchanged; conversely, a
full benchmark trigger leaves the two last-computed `percentile` fields
unchanged on every defined outcome. -/
theorem C10_trigger_frames :
    (∀ n parsed ai ap st r st1,
        percentile_write n parsed ai ap st = some (r, st1) →
        st1.irq_stat.median = st.irq_stat.median ∧ st1.irq_stat.avg = st.irq_stat.avg ∧
        st1.irq_stat.max = st.irq_stat.max ∧ st1.irq_stat.max_avg = st.irq_stat.max_avg ∧
        st1.preempt_stat.median = st.preempt_stat.median ∧
        st1.preempt_stat.avg = st.preempt_stat.avg ∧
        st1.preempt_stat.max = st.preempt_stat.max ∧
        st1.preempt_stat.max_avg = st.preempt_stat.max_avg) ∧
    (∀ n nh env st r st1,
        benchmark_write n nh env st = some (r, st1) →
        st1.irq_stat.percentile = st.irq_stat.percentile ∧
        st1.preempt_stat.percentile = st.preempt_stat.percentile) := by
  constructor
  · exact fun n parsed ai ap st r st1 hmain =>
      percentile_write_frame n parsed ai ap st r st1 hmain
  · intro n nh env st r st1 hmain
    unfold benchmark_write at hmain
    split at hmain
    · obtain ⟨hh1, hh2⟩ := Prod.mk.inj (Option.some.inj hmain)
      subst hh2
      exact ⟨rfl, rfl⟩
    · dsimp only at hmain
      split at hmain
      · obtain ⟨hh1, hh2⟩ := Prod.mk.inj (Option.some.inj hmain)
        subst hh2
        exact ⟨rfl, rfl⟩
      · split at hmain
        · exact Option.noConfusion hmain
        · obtain ⟨hh1, hh2⟩ := Prod.mk.inj (Option.some.inj hmain)
          subst hh2
          exact ⟨rfl, rfl⟩
        · rename_i st2 heq
          obtain ⟨hh1, hh2⟩ := Prod.mk.inj (Option.some.inj hmain)
          subst hh2
          exact run_benchmark_preserves_percentile _ _ _ _ _ _ _ _ heq

/-- C10 witness: both halves applied to concrete successful triggers: a
percentile write of 50 over samples `[11]`/`[13]`, and a benchmark run with
one CPU and samples `[11]`/`[13]`, both starting from a state with distinct
field values. -/
theorem C10_trigger_frames_witness :
    ((⟨⟨1, 2, 3, 4, 11⟩, ⟨6, 7, 8, 9, 13⟩⟩ : ModState).irq_stat.median
        = (⟨⟨1, 2, 3, 4, 5⟩, ⟨6, 7, 8, 9, 10⟩⟩ : ModState).irq_stat.median ∧
      (⟨⟨1, 2, 3, 4, 11⟩, ⟨6, 7, 8, 9, 13⟩⟩ : ModState).irq_stat.avg
        = (⟨⟨1, 2, 3, 4, 5⟩, ⟨6, 7, 8, 9, 10⟩⟩ : ModState).irq_stat.avg ∧
      (⟨⟨1, 2, 3, 4, 11⟩, ⟨6, 7, 8, 9, 13⟩⟩ : ModState).irq_stat.max
        = (⟨⟨1, 2, 3, 4, 5⟩, ⟨6, 7, 8, 9, 10⟩⟩ : ModState).irq_stat.max ∧
      (⟨⟨1, 2, 3, 4, 11⟩, ⟨6, 7, 8, 9, 13⟩⟩ : ModState).irq_stat.max_avg
        = (⟨⟨1, 2, 3, 4, 5⟩, ⟨6, 7, 8, 9, 10⟩⟩ : ModState).irq_stat.max_avg ∧
      (⟨⟨1, 2, 3, 4, 11⟩, ⟨6, 7, 8, 9, 13⟩⟩ : ModState).preempt_stat.median
        = (⟨⟨1, 2, 3, 4, 5⟩, ⟨6, 7, 8, 9, 10⟩⟩ : ModState).preempt_stat.median ∧
      (⟨⟨1, 2, 3, 4, 11⟩, ⟨6, 7, 8, 9, 13⟩⟩ : ModState).preempt_stat.avg
        = (⟨⟨1, 2, 3, 4, 5⟩, ⟨6, 7, 8, 9, 10⟩⟩ : ModState).preempt_stat.avg ∧
      (⟨⟨1, 2, 3, 4, 11⟩, ⟨6, 7, 8, 9, 13⟩⟩ : ModState).preempt_stat.max
        = (⟨⟨1, 2, 3, 4, 5⟩, ⟨6, 7, 8, 9, 10⟩⟩ : ModState).preempt_stat.max ∧
      (⟨⟨1, 2, 3, 4, 11⟩, ⟨6, 7, 8, 9, 13⟩⟩ : ModState).preempt_stat.max_avg
        = (⟨⟨1, 2, 3, 4, 5⟩, ⟨6, 7, 8, 9, 10⟩⟩ : ModState).preempt_stat.max_avg) ∧
    ((⟨⟨11, 11, 11, 11, 5⟩, ⟨13, 13, 13, 13, 10⟩⟩ : ModState).irq_stat.percentile
        = (⟨⟨1, 2, 3, 4, 5⟩, ⟨6, 7, 8, 9, 10⟩⟩ : ModState).irq_stat.percentile ∧
      (⟨⟨11, 11, 11, 11, 5⟩, ⟨13, 13, 13, 13, 10⟩⟩ : ModState).preempt_stat.percentile
        = (⟨⟨1, 2, 3, 4, 5⟩, ⟨6, 7, 8, 9, 10⟩⟩ : ModState).preempt_stat.percentile) :=
  ⟨C10_trigger_frames.1 1 (some 50) (some [11]) (some [13])
      ⟨⟨1, 2, 3, 4, 5⟩, ⟨6, 7, 8, 9, 10⟩⟩ (Except.ok ())
      ⟨⟨1, 2, 3, 4, 11⟩, ⟨6, 7, 8, 9, 13⟩⟩ rfl,
   C10_trigger_frames.2 1 1 ⟨[(some [11], some [13])], true, true⟩
      ⟨⟨1, 2, 3, 4, 5⟩, ⟨6, 7, 8, 9, 10⟩⟩ (Except.ok ())
      ⟨⟨11, 11, 11, 11, 5⟩, ⟨13, 13, 13, 13, 10⟩⟩ rfl⟩

end TracerBench
